import Mathlib

/-!
Verification development for the Metadata-AI batch extraction / resolution /
apply pipeline.  The Python modules are shallowly embedded as pure Lean
functions over a JSON-like value tree; Python dicts are modelled as ordered
association lists with insert-or-overwrite semantics (`ainsert`), matching
Python's insertion-ordered dictionaries.
-/

namespace MetadataAI

/-- JSON-like value tree: the shape of AI-service responses and metadata
values (`RawResponse` in the spec).  Mirrors Python's dict / list / scalar
universe as used by the modules. -/
inductive JVal where
  | str : String → JVal
  | num : Int → JVal
  | boolean : Bool → JVal
  | null : JVal
  | dict : List (String × JVal) → JVal
  | arr : List JVal → JVal

/-- A field map: ordered mapping of field key to value, the canonical
in-pipeline representation (a Python dict of scalars or nested values). -/
abbrev FieldMap := List (String × JVal)

/-- Lookup of a key in an association list (first occurrence wins, as in a
Python dict, which cannot hold duplicate keys). -/
def alookup {α : Type} : List (String × α) → String → Option α
  | [], _ => none
  | (k, v) :: rest, key => if k = key then some v else alookup rest key

/-- Keys of an association list. -/
def akeys {α : Type} : List (String × α) → List String
  | [] => []
  | (k, _) :: rest => k :: akeys rest

/-- Python dict assignment `d[k] = v`: overwrite in place if the key exists
(keeping its position), else append at the end. -/
def ainsert {α : Type} : List (String × α) → String → α → List (String × α)
  | [], key, v => [(key, v)]
  | (k, w) :: rest, key, v =>
      if k = key then (k, v) :: rest else (k, w) :: ainsert rest key v

/-- Python dict deletion `del d[k]`: remove the (unique) binding of the key. -/
def aerase {α : Type} : List (String × α) → String → List (String × α)
  | [], _ => []
  | (k, w) :: rest, key => if k = key then rest else (k, w) :: aerase rest key

/-!
Result Resolver: `extract_structured_data_from_response` from
`Metadata-V3.0/modules/processing.py` (lines 208-268).  The call to
`json.loads` on a string answer is abstracted as a `parse` parameter
(`String → Option JVal`), since the JSON parser is an external library.
-/

namespace Resolver

/-- Denylist of top-level keys excluded from the direct key/value scrape
(`processing.py` line 244). -/
def denylist : List String :=
  ["error", "items", "response", "item_collection", "entries", "type", "id", "sequence_id"]

/-- Rules 1-2 of the resolver: an `answer` entry that is itself a mapping is
used directly; an `answer` entry that is a string is parsed, and a parsed
mapping is used (lines 226-240).  `none` means the control flow falls
through to the later checks. -/
def answerFromTop (parse : String → Option JVal) (fields : FieldMap) : Option FieldMap :=
  match alookup fields "answer" with
  | some (JVal.dict a) => some a
  | some (JVal.str s) =>
      match parse s with
      | some (JVal.dict a) => some a
      | _ => none
  | _ => none

/-- The top-level scrape (lines 242-245): every key/value pair of the
response whose key is outside the denylist, accumulated by dict assignment. -/
def scrapeTop (fields : FieldMap) : FieldMap :=
  fields.foldl (fun acc kv => if kv.1 ∈ denylist then acc else ainsert acc kv.1 kv.2) []

/-- The `response.answer` check (lines 248-253): a dict `response` entry
holding a dict `answer` entry. -/
def respAnswer (fields : FieldMap) : Option FieldMap :=
  match alookup fields "response" with
  | some (JVal.dict r) =>
      match alookup r "answer" with
      | some (JVal.dict a) => some a
      | _ => none
  | _ => none

/-- The `items[0].answer` check (lines 256-262): a non-empty `items` list
whose first element is a dict holding a dict `answer` entry. -/
def items0Answer (fields : FieldMap) : Option FieldMap :=
  match alookup fields "items" with
  | some (JVal.arr (item :: _)) =>
      match item with
      | JVal.dict ifields =>
          match alookup ifields "answer" with
          | some (JVal.dict a) => some a
          | _ => none
      | _ => none
  | _ => none

/-- Faithful embedding of `extract_structured_data_from_response`
(lines 208-268): the early returns of rules 1-2, then the top-level scrape
held as the running `structured_data`, then the `response.answer` and
`items[0].answer` early returns, and finally the scrape itself.  A
non-mapping input yields the empty map. -/
def extract_structured_data_from_response (parse : String → Option JVal)
    (response : JVal) : FieldMap :=
  match response with
  | JVal.dict fields =>
      match answerFromTop parse fields with
      | some a => a
      | none =>
          match respAnswer fields with
          | some a => a
          | none =>
              match items0Answer fields with
              | some a => a
              | none => scrapeTop fields
  | _ => []

end Resolver

/-!
Feedback Merge: the overlay of operator feedback onto a resolved field map
in `process_file` of `Metadata-V3.0/modules/processing.py` (lines 279-285
and 323-328).
-/

namespace Feedback

/-- Feedback store key, `f"{file_id}_{extraction_method}"`
(`processing.py` line 280). -/
def feedbackKey (fileId extractionMethod : String) : String :=
  fileId ++ "_" ++ extractionMethod

/-- Overlay of a feedback dict onto a result dict
(`for key, value in feedback.items(): result[key] = value`, lines 327-328):
feedback values overwrite on key collision, feedback-only keys are appended. -/
def mergeFeedback (result feedback : FieldMap) : FieldMap :=
  feedback.foldl (fun acc kv => ainsert acc kv.1 kv.2) result

/-- The feedback step of `process_file`: look up the feedback entry for this
file and extraction method (line 281) and, when present, overlay it onto the
resolved result (lines 323-328); otherwise the resolved result is returned
unchanged. -/
def applyFeedback (feedbackData : List (String × FieldMap))
    (fileId extractionMethod : String) (resolved : FieldMap) : FieldMap :=
  match alookup feedbackData (feedbackKey fileId extractionMethod) with
  | some feedback => mergeFeedback resolved feedback
  | none => resolved

end Feedback

/-!
Apply Engine: `apply_metadata_to_file_direct` and the result-collection path
of `apply_metadata_direct`, from
`modules/direct_metadata_application_enhanced_fixed.py`.  The Box metadata
store is an external collaborator; it is modelled by `BoxStore` after its
interface (create returns a conflict error whose text contains
"already exists" when the properties instance is present; update applies a
JSON-patch).  Python builtins `json.loads` and `str` are abstracted as
`parse` and `stringify` parameters.
-/

namespace Apply

/-- Character-list prefix test used by the substring helper. -/
def charsPre : List Char → List Char → Bool
  | [], _ => true
  | _ :: _, [] => false
  | c :: cs, d :: ds => c == d && charsPre cs ds

/-- Character-list substring test used by the substring helper. -/
def charsSub : List Char → List Char → Bool
  | [], pat => charsPre pat []
  | c :: cs, pat => charsPre pat (c :: cs) || charsSub cs pat

/-- Python `pat in hay` substring test on strings. -/
def strContains (hay pat : String) : Bool := charsSub hay.data pat.data

/-- Python `s.startswith(pre)`. -/
def startswith (s pre : String) : Bool := charsPre pre.data s.data

/-- Python `s.lower()`. -/
def lowerStr (s : String) : String := String.mk (s.data.map Char.toLower)

/-- Fixed placeholder indicator set (`is_placeholder`, lines 661-664). -/
def placeholder_indicators : List String :=
  ["insert", "placeholder", "<", ">", "[", "]", "enter", "fill in", "your", "example"]

/-- Embedding of `is_placeholder` (lines 656-667): a value is a placeholder
exactly when it is a string whose lower-cased text contains one of the
indicators; non-strings are never placeholders. -/
def is_placeholder (value : JVal) : Bool :=
  match value with
  | JVal.str s => placeholder_indicators.any (fun ind => strContains (lowerStr s) ind)
  | _ => false

/-- Key normalization (lines 773-774):
`key.lower().replace(" ", "_").replace("-", "_")`.  Both replacements are of
single-character substrings, so they amount to a per-character map after
lower-casing. -/
def normalizeKey (key : String) : String :=
  String.mk ((lowerStr key).data.map (fun c =>
    if c = ' ' then '_' else if c = '-' then '_' else c))

/-- Options and collaborator data consumed by `apply_metadata_to_file_direct`:
the four checkbox options, the metadata the UI/default fallbacks would
supply, and Python `str` for the value coercion (line 781). -/
structure ApplyEnv where
  use_ui_data : Bool
  use_default_metadata : Bool
  filter_placeholders : Bool
  normalize_keys : Bool
  uiMetadata : FieldMap
  defaultMetadata : FieldMap
  stringify : JVal → String

/-- Value coercion (lines 779-781): `str`, `int`, `float`, `bool` values are
kept, anything else is stringified. -/
def coerceValue (env : ApplyEnv) (v : JVal) : JVal :=
  match v with
  | JVal.str _ => v
  | JVal.num _ => v
  | JVal.boolean _ => v
  | _ => JVal.str (env.stringify v)

/-- Whether a value is of one of the scalar kinds the coercion keeps as-is. -/
def isScalarValue : JVal → Bool
  | JVal.str _ => true
  | JVal.num _ => true
  | JVal.boolean _ => true
  | _ => false

/-- One JSON-patch operation as built at lines 806-811. -/
structure PatchOp where
  op : String
  path : String
  value : JVal

/-- A call made against the document metadata store.  The store interface
also offers a fetch (`get`), which the claims reason about. -/
inductive StoreCall where
  | create (values : FieldMap)
  | update (ops : List PatchOp)
  | get

/-- Model of the Box properties-metadata record of one file: `none` when no
instance exists yet. -/
structure BoxStore where
  existing : Option FieldMap

/-- Store `create`: conflict (error text containing "already exists") when an
instance is present, otherwise the instance is created. -/
def BoxStore.createProps (s : BoxStore) (values : FieldMap) : Except String BoxStore :=
  match s.existing with
  | some _ => Except.error "Instance tuple already exists"
  | none => Except.ok { existing := some values }

/-- Key named by a patch path `"/key"`: drop the leading slash. -/
def pathKey (p : String) : String := String.mk (p.data.drop 1)

/-- JSON-patch application: `replace` requires the path to exist, `add`
inserts, anything else fails. -/
def applyPatchOps : FieldMap → List PatchOp → Except String FieldMap
  | cur, [] => Except.ok cur
  | cur, patchOp :: rest =>
      let key := pathKey patchOp.path
      if patchOp.op = "replace" then
        if key ∈ akeys cur then applyPatchOps (ainsert cur key patchOp.value) rest
        else Except.error "No such property"
      else if patchOp.op = "add" then applyPatchOps (ainsert cur key patchOp.value) rest
      else Except.error "Unsupported operation"

/-- Store `update`: applies the patch to the existing instance. -/
def BoxStore.updateProps (s : BoxStore) (ops : List PatchOp) : Except String BoxStore :=
  match s.existing with
  | none => Except.error "Not found"
  | some cur =>
      match applyPatchOps cur ops with
      | Except.ok cur2 => Except.ok { existing := some cur2 }
      | Except.error e => Except.error e

/-- Per-file apply result (`success` flag and error message of the returned
dict). -/
structure ApplyOutcome where
  success : Bool
  error : Option String

/-- The explanatory marker entry added when filtering removed every field
(line 755). -/
def placeholderNote : String × JVal :=
  ("_note", JVal.str "All other values were placeholders")

/-- The placeholder-filtering block (lines 744-757): drop every entry whose
value is a placeholder; if that removed every entry of a non-empty map,
assign the first original entry and then the `_note` marker entry into the
filtered dict by dict assignment — so a first key that is itself `_note` is
overwritten by the marker write. -/
def filterPlaceholderStage (metadata_values : FieldMap) : FieldMap :=
  let filtered := metadata_values.filter (fun kv => !(is_placeholder kv.2))
  if filtered.isEmpty && !metadata_values.isEmpty then
    match metadata_values with
    | [] => filtered
    | (k0, v0) :: _ =>
        ainsert (ainsert filtered k0 v0) "_note"
          (JVal.str "All other values were placeholders")
  else filtered

/-- The key-normalization block (lines 770-776): rebuild the dict with
normalized keys by dict assignment (later keys overwrite earlier collisions). -/
def normalizeStage (metadata_values : FieldMap) : FieldMap :=
  metadata_values.foldl (fun acc kv => ainsert acc (normalizeKey kv.1) kv.2) []

/-- The value-coercion block (lines 778-781). -/
def coerceStage (env : ApplyEnv) (metadata_values : FieldMap) : FieldMap :=
  metadata_values.map (fun kv => (kv.1, coerceValue env kv.2))

/-- Faithful embedding of `apply_metadata_to_file_direct` (lines 716-848):
UI/default metadata fallbacks for an empty input map, placeholder filtering
with the keep-one-field fallback, the empty-after-filtering error return,
key normalization, value coercion, then create and, on an
"already exists" conflict, an update built from `replace` operations for
every key.  Returns the outcome, the resulting store, and the trace of
store calls made. -/
def apply_metadata_to_file_direct (env : ApplyEnv) (store : BoxStore)
    (metadata_values : FieldMap) : ApplyOutcome × BoxStore × List StoreCall :=
  let mv1 := if metadata_values.isEmpty && env.use_ui_data && !env.uiMetadata.isEmpty
    then env.uiMetadata else metadata_values
  let mv2 := if mv1.isEmpty && env.use_default_metadata then env.defaultMetadata else mv1
  let mv3 := if env.filter_placeholders then filterPlaceholderStage mv2 else mv2
  if mv3.isEmpty then
    ({ success := false, error := some "No valid metadata found after filtering placeholders" },
      store, [])
  else
    let mv4 := if env.normalize_keys then normalizeStage mv3 else mv3
    let mv5 := coerceStage env mv4
    match store.createProps mv5 with
    | Except.ok store2 => ({ success := true, error := none }, store2, [StoreCall.create mv5])
    | Except.error e =>
        if strContains (lowerStr e) "already exists" then
          let ops := mv5.map (fun kv => PatchOp.mk "replace" ("/" ++ kv.1) kv.2)
          match store.updateProps ops with
          | Except.ok store2 =>
              ({ success := true, error := none }, store2,
                [StoreCall.create mv5, StoreCall.update ops])
          | Except.error ue =>
              ({ success := false, error := some ("Error updating metadata: " ++ ue) },
                store, [StoreCall.create mv5, StoreCall.update ops])
        else
          ({ success := false, error := some ("Error creating metadata: " ++ e) },
            store, [StoreCall.create mv5])

/-- The result-collection path of `apply_metadata_direct` (lines 877-897):
from a metadata content value, a dict keeps the pairs whose key does not
start with the internal underscore prefix; a string is parsed as JSON and a
parsed dict is copied wholesale, otherwise the string becomes a single
`extracted_text` field. -/
def metadataValuesFromContent (parse : String → Option JVal) (content : JVal) : FieldMap :=
  match content with
  | JVal.dict fields =>
      fields.foldl (fun acc kv => if startswith kv.1 "_" then acc else ainsert acc kv.1 kv.2) []
  | JVal.str s =>
      match parse s with
      | some (JVal.dict fields) => fields.foldl (fun acc kv => ainsert acc kv.1 kv.2) []
      | some _ => [("extracted_text", JVal.str s)]
      | none => [("extracted_text", JVal.str s)]
  | _ => []

/-- Modelled from the spec: the upsert patch the specification describes for
the conflict path — fetched existing values drive a patch of `add`
operations for keys not previously present and `replace` operations for
keys that are.  This definition exists only to be compared with the patch
the code actually builds. -/
def claimedUpsertPatch (existingValues values : FieldMap) : List PatchOp :=
  values.map (fun kv =>
    if kv.1 ∈ akeys existingValues then PatchOp.mk "replace" ("/" ++ kv.1) kv.2
    else PatchOp.mk "add" ("/" ++ kv.1) kv.2)

end Apply

/-- One selected file as held in `st.session_state.selected_files`. -/
structure FileInfo where
  id : String
  name : String
deriving DecidableEq

/-!
Batch driver of `Metadata-V3.0/modules/processing.py` (`process_files`,
lines 624-719): a state machine advanced one file per script rerun, holding
the processing state bag.  The per-file extraction (the AI call through
`process_file`) is abstracted as an oracle `extract` taking the file id and
the number of prior invocations for that file, and the run returns the
trace of extraction invocations and sleeps it performed.
-/

namespace DriverV3

/-- Entry of `processing_state["results"]` (lines 601-605). -/
structure ResultEntry where
  file_id : String
  file_name : String
  result : FieldMap

/-- Entry of `processing_state["errors"]` (lines 616-620). -/
structure ErrorEntry where
  file_id : String
  file_name : String
  error : String
deriving DecidableEq

/-- The driver-relevant part of `processing_state` (lines 38-51 and 625-634);
`retry_delay` only controls the length of the sleep and is omitted. -/
structure PState where
  is_processing : Bool
  current_file_index : Int
  current_file : String
  processed_files : Nat
  results : List (String × ResultEntry)
  errors : List (String × ErrorEntry)
  retries : List (String × Nat)
  max_retries : Nat
  extraction_results : List (String × ResultEntry)

/-- Observable events of the driver: an extraction invocation for a file and
the retry-delay sleep (`time.sleep`, line 688). -/
inductive Ev where
  | call (fileId : String)
  | sleep
deriving DecidableEq

/-- Whether an event is an extraction invocation for the given file. -/
def isCallOf (fileId : String) : Ev → Bool
  | Ev.call f => f == fileId
  | Ev.sleep => false

/-- Number of extraction invocations for a file in a trace. -/
def countCalls (t : List Ev) (fileId : String) : Nat :=
  (t.filter (isCallOf fileId)).length

/-- Embedding of `process_file` (lines 271-622) at the granularity the
driver observes: one extraction invocation whose outcome is given by the
oracle; success stores a result entry and returns `true`, an exception
stores an error entry and returns `false`. -/
def process_file (extract : String → Nat → Except String FieldMap)
    (prior : Nat) (f : FileInfo) (s : PState) : PState × Bool :=
  match extract f.id prior with
  | Except.ok fm =>
      ({ s with results := ainsert s.results f.id ⟨f.id, f.name, fm⟩ }, true)
  | Except.error e =>
      ({ s with errors := ainsert s.errors f.id ⟨f.id, f.name, e⟩ }, false)

/-- Python list indexing with an `Int` index (the driver starts at `-1`). -/
def getFile (files : List FileInfo) (n : Int) : Option FileInfo :=
  if n < 0 then none else files.get? n.toNat

/-- The shared tail of the processing branches (lines 703-713): increment
`current_file_index` again, mark the run complete when the index has reached
the end, and mirror results into `extraction_results`. -/
def finishStep (files : List FileInfo) (s : PState) : PState :=
  let s1 := { s with current_file_index := s.current_file_index + 1 }
  let s2 := if s1.current_file_index ≥ (files.length : Int)
    then { s1 with is_processing := false } else s1
  { s2 with extraction_results := s2.results }

/-- One script rerun of the driver (lines 642-719).  The skip branch for an
already-recorded result (lines 657-662) calls `st.rerun()` before the shared
tail, so it does not go through `finishStep`; all other branches do, which
advances the index a second time. -/
def process_files_step (extract : String → Nat → Except String FieldMap)
    (files : List FileInfo) (s : PState) (trace : List Ev) : PState × List Ev :=
  if s.is_processing then
    match getFile files (s.current_file_index + 1) with
    | none => ({ s with is_processing := false }, trace)
    | some file =>
        let s1 := { s with
          current_file_index := s.current_file_index + 1
          current_file := file.name }
        match alookup s1.results file.id with
        | some _ =>
            ({ s1 with processed_files := s1.processed_files + 1 }, trace)
        | none =>
            match alookup s1.errors file.id with
            | some _ =>
                let rc := (alookup s1.retries file.id).getD 0
                if rc < s1.max_retries then
                  let s2 := { s1 with retries := ainsert s1.retries file.id (rc + 1) }
                  let pr := process_file extract (countCalls trace file.id) file s2
                  let s3 := if pr.2 then
                      { pr.1 with
                        errors := aerase pr.1.errors file.id
                        processed_files := pr.1.processed_files + 1 }
                    else pr.1
                  (finishStep files s3, trace ++ [Ev.call file.id, Ev.sleep])
                else
                  (finishStep files { s1 with processed_files := s1.processed_files + 1 },
                    trace)
            | none =>
                let pr := process_file extract (countCalls trace file.id) file s1
                let s3 := if pr.2 then { pr.1 with processed_files := pr.1.processed_files + 1 }
                  else pr.1
                (finishStep files s3, trace ++ [Ev.call file.id])
  else (s, trace)

/-- The driver iterated across script reruns until `is_processing` clears
(fuel-bounded). -/
def process_files_run (extract : String → Nat → Except String FieldMap)
    (files : List FileInfo) : Nat → PState → List Ev → PState × List Ev
  | 0, s, t => (s, t)
  | Nat.succ fuel, s, t =>
      if s.is_processing then
        let st := process_files_step extract files s t
        process_files_run extract files fuel st.1 st.2
      else (s, t)

/-- The processing state as reset by the Start Processing button
(lines 625-634), with the configured `max_retries`. -/
def initPState (maxRetries : Nat) : PState :=
  { is_processing := true, current_file_index := -1, current_file := "",
    processed_files := 0, results := [], errors := [], retries := [],
    max_retries := maxRetries, extraction_results := [] }

end DriverV3

/-!
Batch loop of `modules/processing.py` (`process_files_with_progress`,
lines 252-342): a single in-script loop over the whole file list, either
sequential or through a thread pool.  `process_single_file` catches every
exception and returns a success/error dict, abstracted as the `outcome`
oracle.  The externally-flipped `is_processing` flag is modelled by the
value each of its reads observes: `entryCancelled` for the read at function
entry (line 263) and `cancel i` for the read at the top of sequential
iteration `i` (line 309); `true` means cancellation has been observed.
-/

namespace Processing4

/-- The loop-relevant part of `processing_state` for this module, plus the
mirrored `extraction_results`. -/
structure ProcState where
  processed_files : Nat
  total_files : Nat
  current_file_index : Int
  current_file : String
  results : List (String × FieldMap)
  errors : List (String × String)
  extraction_results : List (String × FieldMap)

/-- The sequential loop (lines 306-335): per iteration, observe the
cancellation flag and break when set, otherwise invoke the file's outcome
and record it.  Returns the final state and the ids invoked, in order. -/
def seqLoop (cancel : Nat → Bool) (outcome : String → Except String FieldMap) :
    List FileInfo → Nat → ProcState → ProcState × List String
  | [], _, s => (s, [])
  | f :: rest, i, s =>
      if cancel i then (s, [])
      else
        let s1 := { s with current_file_index := (i : Int), current_file := f.name }
        match outcome f.id with
        | Except.ok d =>
            let s2 := { s1 with
              processed_files := s1.processed_files + 1
              results := ainsert s1.results f.id d
              extraction_results := ainsert s1.extraction_results f.id d }
            let r := seqLoop cancel outcome rest (i + 1) s2
            (r.1, f.id :: r.2)
        | Except.error e =>
            let s2 := { s1 with
              processed_files := s1.processed_files + 1
              errors := ainsert s1.errors f.id e }
            let r := seqLoop cancel outcome rest (i + 1) s2
            (r.1, f.id :: r.2)

/-- Sequential mode of `process_files_with_progress`: the entry guard
(line 263), the total-files update (line 268), the loop, then the
completion epilogue (lines 337-339; the `is_processing := False` write
affects only the external flag). -/
def process_files_with_progress_seq (entryCancelled : Bool) (cancel : Nat → Bool)
    (outcome : String → Except String FieldMap) (files : List FileInfo)
    (s : ProcState) : ProcState × List String :=
  if entryCancelled then (s, [])
  else
    let s0 := { s with total_files := files.length }
    let r := seqLoop cancel outcome files 0 s0
    ({ r.1 with current_file := "" }, r.2)

/-- Recording of one completed parallel future (lines 281-304). -/
def recordCompletion (outcome : String → Except String FieldMap)
    (st : ProcState) (f : FileInfo) : ProcState :=
  match outcome f.id with
  | Except.ok d =>
      { st with
        processed_files := st.processed_files + 1
        current_file := ""
        results := ainsert st.results f.id d
        extraction_results := ainsert st.extraction_results f.id d }
  | Except.error e =>
      { st with
        processed_files := st.processed_files + 1
        current_file := ""
        errors := ainsert st.errors f.id e }

/-- Parallel mode of `process_files_with_progress`: after the entry guard,
every file is submitted to the pool unconditionally (lines 275-278, no
cancellation check per dispatch), and completions are recorded in arrival
order — an arbitrary permutation `arrival` of the indices (lines 281-304).
Returns the final state and the list of dispatched ids. -/
def process_files_with_progress_par (entryCancelled : Bool)
    (outcome : String → Except String FieldMap) (files : List FileInfo)
    (arrival : List Nat) (s : ProcState) : ProcState × List String :=
  if entryCancelled then (s, [])
  else
    let s0 := { s with total_files := files.length }
    let dispatched := files.map (fun f => f.id)
    let completions := arrival.filterMap files.get?
    let sFinal := completions.foldl (recordCompletion outcome) s0
    ({ sFinal with current_file := "" }, dispatched)

end Processing4

/-!
Fixtures used by witnesses and counterexamples.
-/

/-- Options fixture: placeholder filtering on, key normalization off, no
UI/default metadata fallbacks. -/
def filterEnv : Apply.ApplyEnv :=
  { use_ui_data := false, use_default_metadata := false, filter_placeholders := true,
    normalize_keys := false, uiMetadata := [], defaultMetadata := [],
    stringify := fun _ => "" }

/-- Options fixture: both filtering and normalization off. -/
def plainEnv : Apply.ApplyEnv :=
  { use_ui_data := false, use_default_metadata := false, filter_placeholders := false,
    normalize_keys := false, uiMetadata := [], defaultMetadata := [],
    stringify := fun _ => "" }

/-- Options fixture matching the checkbox defaults of the apply page:
filtering and normalization both on. -/
def defaultEnv : Apply.ApplyEnv :=
  { use_ui_data := true, use_default_metadata := false, filter_placeholders := true,
    normalize_keys := true, uiMetadata := [], defaultMetadata := [],
    stringify := fun _ => "" }

/-- Fresh processing state of `modules/processing.py` (lines 163-178). -/
def emptyProcState : Processing4.ProcState :=
  { processed_files := 0, total_files := 0, current_file_index := -1, current_file := "",
    results := [], errors := [], extraction_results := [] }

/-!
General lemmas about the association-list model of Python dicts.
-/

theorem alookup_ainsert_self {α : Type} (l : List (String × α)) (k : String) (v : α) :
    alookup (ainsert l k v) k = some v := by
  induction l with
  | nil => simp [ainsert, alookup]
  | cons hd tl ih =>
      obtain ⟨k0, w⟩ := hd
      by_cases h : k0 = k
      · simp [ainsert, h, alookup]
      · simp [ainsert, h, alookup, ih]

theorem alookup_ainsert_ne {α : Type} (l : List (String × α)) (k k' : String) (v : α)
    (h : k' ≠ k) : alookup (ainsert l k' v) k = alookup l k := by
  induction l with
  | nil => simp [ainsert, alookup, h]
  | cons hd tl ih =>
      obtain ⟨k0, w⟩ := hd
      by_cases h0 : k0 = k'
      · subst h0
        simp [ainsert, alookup, h]
      · simp [ainsert, h0, alookup, ih]

theorem mem_akeys_ainsert_iff {α : Type} (l : List (String × α)) (k k' : String) (v : α) :
    k ∈ akeys (ainsert l k' v) ↔ k ∈ akeys l ∨ k = k' := by
  induction l with
  | nil => simp [ainsert, akeys]
  | cons hd tl ih =>
      obtain ⟨k0, w⟩ := hd
      by_cases h0 : k0 = k'
      · subst h0
        simp [ainsert, akeys]
        tauto
      · simp [ainsert, h0, akeys] at ih ⊢
        tauto

theorem fst_mem_akeys {α : Type} (l : List (String × α)) (kv : String × α) :
    kv ∈ l → kv.1 ∈ akeys l := by
  induction l with
  | nil => intro h; simp at h
  | cons hd tl ih =>
      obtain ⟨k0, w⟩ := hd
      intro h
      rcases List.mem_cons.mp h with h | h
      · subst h
        simp [akeys]
      · simp [akeys]
        exact Or.inr (ih h)

theorem mem_akeys_ainsert_of_mem {α : Type} (l : List (String × α)) (k k' : String) (v : α)
    (h : k ∈ akeys l) : k ∈ akeys (ainsert l k' v) :=
  (mem_akeys_ainsert_iff l k k' v).mpr (Or.inl h)

theorem ainsert_ne_nil {α : Type} (l : List (String × α)) (k : String) (v : α) :
    ainsert l k v ≠ [] := by
  cases l with
  | nil => simp [ainsert]
  | cons hd tl =>
      obtain ⟨k0, w⟩ := hd
      unfold ainsert
      split <;> simp

/-!
Lemmas about the feedback overlay.
-/

namespace Feedback

theorem alookup_mergeFeedback (result feedback : FieldMap) (k : String)
    (hnd : (akeys feedback).Nodup) :
    alookup (mergeFeedback result feedback) k =
      if k ∈ akeys feedback then alookup feedback k else alookup result k := by
  induction feedback generalizing result with
  | nil => simp [mergeFeedback, akeys]
  | cons hd tl ih =>
      obtain ⟨k0, v0⟩ := hd
      simp [akeys] at hnd
      have step : mergeFeedback result ((k0, v0) :: tl) =
          mergeFeedback (ainsert result k0 v0) tl := rfl
      rw [step, ih (ainsert result k0 v0) hnd.2]
      by_cases hk : k ∈ akeys tl
      · have hk0 : ¬ k0 = k := fun hc => hnd.1 (hc ▸ hk)
        simp [akeys, hk, alookup, hk0]
      · by_cases hk0 : k0 = k
        · subst hk0
          simp [akeys, hk, alookup, alookup_ainsert_self]
        · have hne : ¬ k = k0 := fun hc => hk0 hc.symm
          simp [akeys, hk, hne, alookup, hk0,
            alookup_ainsert_ne result k k0 v0 (fun hc => hk0 hc)]

theorem mem_akeys_mergeFeedback (result feedback : FieldMap) (k : String) :
    k ∈ akeys (mergeFeedback result feedback) ↔
      k ∈ akeys result ∨ k ∈ akeys feedback := by
  induction feedback generalizing result with
  | nil => simp [mergeFeedback, akeys]
  | cons hd tl ih =>
      obtain ⟨k0, v0⟩ := hd
      have step : mergeFeedback result ((k0, v0) :: tl) =
          mergeFeedback (ainsert result k0 v0) tl := rfl
      rw [step, ih (ainsert result k0 v0)]
      rw [mem_akeys_ainsert_iff]
      simp [akeys]
      tauto

end Feedback

/-!
Lemmas about the apply-engine stages and the store model.
-/

namespace Apply

theorem coerceValue_scalar (env : ApplyEnv) (v : JVal) (h : isScalarValue v = true) :
    coerceValue env v = v := by
  cases v with
  | str s => rfl
  | num n => rfl
  | boolean b => rfl
  | null => simp [isScalarValue] at h
  | dict fields => simp [isScalarValue] at h
  | arr items => simp [isScalarValue] at h

theorem coerceValue_placeholder (env : ApplyEnv) (v : JVal)
    (h : is_placeholder v = true) : coerceValue env v = v := by
  cases v with
  | str s => rfl
  | num n => simp [is_placeholder] at h
  | boolean b => simp [is_placeholder] at h
  | null => simp [is_placeholder] at h
  | dict fields => simp [is_placeholder] at h
  | arr items => simp [is_placeholder] at h

theorem coerceStage_of_scalar (env : ApplyEnv) :
    ∀ vals : FieldMap, vals.all (fun kv => isScalarValue kv.2) = true →
      coerceStage env vals = vals
  | [], _ => rfl
  | (k, v) :: tl, h => by
      rw [List.all_cons, Bool.and_eq_true] at h
      have h1 := coerceValue_scalar env v h.1
      have h2 := coerceStage_of_scalar env tl h.2
      show (k, coerceValue env v) :: coerceStage env tl = (k, v) :: tl
      rw [h1, h2]

theorem pathKey_slash (k : String) : pathKey ("/" ++ k) = k := by
  cases k with
  | mk data => rfl

theorem applyPatchOps_replace_ok :
    ∀ (vals cur : FieldMap), (∀ kv ∈ vals, kv.1 ∈ akeys cur) →
      ∃ r, applyPatchOps cur
        (vals.map (fun kv => PatchOp.mk "replace" ("/" ++ kv.1) kv.2)) = Except.ok r
  | [], cur, _ => ⟨cur, rfl⟩
  | (k, v) :: tl, cur, h => by
      have hk : k ∈ akeys cur := h (k, v) (List.mem_cons_self _ _)
      have htl : ∀ kv ∈ tl, kv.1 ∈ akeys (ainsert cur k v) := fun kv hkv =>
        mem_akeys_ainsert_of_mem cur kv.1 k v (h kv (List.mem_cons_of_mem _ hkv))
      obtain ⟨r, hr⟩ := applyPatchOps_replace_ok tl (ainsert cur k v) htl
      refine ⟨r, ?_⟩
      simp [applyPatchOps, pathKey_slash, hk, hr]

end Apply

/-!
Claim theorems about the Result Resolver.
-/

/-- C3: for every raw response that is a mapping containing an `answer` entry
that is itself a mapping, the resolver returns exactly that `answer` mapping
(rule 1), regardless of any other top-level scrapeable keys — the top-level
scrape contributes nothing. -/
theorem C3_mapping_answer_wins (parse : String → Option JVal) (fields a : FieldMap)
    (h : alookup fields "answer" = some (JVal.dict a)) :
    Resolver.extract_structured_data_from_response parse (JVal.dict fields) = a := by
  simp [Resolver.extract_structured_data_from_response, Resolver.answerFromTop, h]

/-- Witness for C3 at a concrete response holding both a mapping `answer`
and a scrapeable top-level key. -/
theorem C3_witness :
    Resolver.extract_structured_data_from_response (fun _ => none)
      (JVal.dict [("vendor", JVal.str "X"), ("answer", JVal.dict [("k", JVal.str "v")])]) =
      [("k", JVal.str "v")] :=
  C3_mapping_answer_wins (fun _ => none)
    [("vendor", JVal.str "X"), ("answer", JVal.dict [("k", JVal.str "v")])]
    [("k", JVal.str "v")] rfl

/-- C2 counterexample: a mapping with no `answer` entry, a scrapeable
top-level key `customer`, and a nested `response.answer` mapping.  The claim
says rule 3 (the top-level scrape, `[("customer", "Acme")]`) determines the
result; the code instead returns the nested answer `[("x", "1")]`. -/
theorem C2_counterexample :
    Resolver.extract_structured_data_from_response (fun _ => none)
      (JVal.dict [("customer", JVal.str "Acme"),
        ("response", JVal.dict [("answer", JVal.dict [("x", JVal.str "1")])])]) =
      [("x", JVal.str "1")] ∧
    Resolver.scrapeTop [("customer", JVal.str "Acme"),
        ("response", JVal.dict [("answer", JVal.dict [("x", JVal.str "1")])])] =
      [("customer", JVal.str "Acme")] ∧
    ([("x", JVal.str "1")] : FieldMap) ≠ [("customer", JVal.str "Acme")] :=
  ⟨rfl, rfl, by simp⟩

/-- C2 (amended): for every raw response that is a mapping with no usable
top-level `answer` entry, a nested `response.answer` mapping, when present,
determines the result; otherwise a nested `items[0].answer` mapping does;
the top-level scrape determines the result only when neither nested answer
mapping is present — rule 4 takes priority over rule 3, not the other way
around. -/
theorem C2_nested_answer_priority (parse : String → Option JVal) (fields : FieldMap)
    (hna : Resolver.answerFromTop parse fields = none) :
    (∀ a, Resolver.respAnswer fields = some a →
      Resolver.extract_structured_data_from_response parse (JVal.dict fields) = a) ∧
    (Resolver.respAnswer fields = none →
      (∀ a, Resolver.items0Answer fields = some a →
        Resolver.extract_structured_data_from_response parse (JVal.dict fields) = a) ∧
      (Resolver.items0Answer fields = none →
        Resolver.extract_structured_data_from_response parse (JVal.dict fields) =
          Resolver.scrapeTop fields)) := by
  refine ⟨fun a hra => ?_, fun hrn => ⟨fun a hia => ?_, fun hin => ?_⟩⟩
  · simp [Resolver.extract_structured_data_from_response, hna, hra]
  · simp [Resolver.extract_structured_data_from_response, hna, hrn, hia]
  · simp [Resolver.extract_structured_data_from_response, hna, hrn, hin]

/-- Witness for C2 (amended) at the counterexample input: the nested
`response.answer` mapping determines the result. -/
theorem C2_witness :
    Resolver.extract_structured_data_from_response (fun _ => none)
      (JVal.dict [("customer", JVal.str "Acme"),
        ("response", JVal.dict [("answer", JVal.dict [("x", JVal.str "1")])])]) =
      [("x", JVal.str "1")] :=
  (C2_nested_answer_priority (fun _ => none)
      [("customer", JVal.str "Acme"),
        ("response", JVal.dict [("answer", JVal.dict [("x", JVal.str "1")])])] rfl).1
    [("x", JVal.str "1")] rfl

/-- C9: for every input to the resolver that is not a mapping — a string,
number, boolean, null, or list at the top level — the resolver returns the
empty field map (and, being a total function, cannot raise), regardless of
the contents of the value. -/
theorem C9_non_mapping_empty (parse : String → Option JVal) :
    (∀ s, Resolver.extract_structured_data_from_response parse (JVal.str s) = []) ∧
    (∀ n, Resolver.extract_structured_data_from_response parse (JVal.num n) = []) ∧
    (∀ b, Resolver.extract_structured_data_from_response parse (JVal.boolean b) = []) ∧
    Resolver.extract_structured_data_from_response parse JVal.null = [] ∧
    (∀ items, Resolver.extract_structured_data_from_response parse (JVal.arr items) = []) :=
  ⟨fun _ => rfl, fun _ => rfl, fun _ => rfl, rfl, fun _ => rfl⟩

/-!
Claim theorems about the Feedback Merge.
-/

/-- C6: for every document id, extraction method and resolved field map, if
a feedback entry exists for the `(document, method)` key then the merge
result holds every key of the resolved map and every key of the feedback
entry, with the feedback value taken on every key collision and
resolved-only keys kept unchanged; with no feedback entry the resolved map
is returned unchanged. -/
theorem C6_feedback_merge (feedbackData : List (String × FieldMap))
    (fileId extractionMethod : String) (resolved : FieldMap) :
    (∀ fb, alookup feedbackData (Feedback.feedbackKey fileId extractionMethod) = some fb →
      (akeys fb).Nodup →
      (∀ k, k ∈ akeys fb →
        alookup (Feedback.applyFeedback feedbackData fileId extractionMethod resolved) k =
          alookup fb k) ∧
      (∀ k, k ∉ akeys fb →
        alookup (Feedback.applyFeedback feedbackData fileId extractionMethod resolved) k =
          alookup resolved k) ∧
      (∀ k, k ∈ akeys (Feedback.applyFeedback feedbackData fileId extractionMethod resolved) ↔
        k ∈ akeys resolved ∨ k ∈ akeys fb)) ∧
    (alookup feedbackData (Feedback.feedbackKey fileId extractionMethod) = none →
      Feedback.applyFeedback feedbackData fileId extractionMethod resolved = resolved) := by
  constructor
  · intro fb hfb hnd
    have happ : Feedback.applyFeedback feedbackData fileId extractionMethod resolved =
        Feedback.mergeFeedback resolved fb := by
      simp [Feedback.applyFeedback, hfb]
    refine ⟨fun k hk => ?_, fun k hk => ?_, fun k => ?_⟩
    · rw [happ, Feedback.alookup_mergeFeedback resolved fb k hnd, if_pos hk]
    · rw [happ, Feedback.alookup_mergeFeedback resolved fb k hnd, if_neg hk]
    · rw [happ]
      exact Feedback.mem_akeys_mergeFeedback resolved fb k
  · intro hnone
    simp [Feedback.applyFeedback, hnone]

/-- Witness for C6 at the specification's example:
`resolved = {a:1, b:2}` and feedback `{b:9, c:3}` give feedback precedence
on `b`, keep `a`, and add `c`; with no feedback entry the map is unchanged. -/
theorem C6_witness :
    (alookup (Feedback.applyFeedback [("doc1_freeform", [("b", JVal.str "9"), ("c", JVal.str "3")])]
        "doc1" "freeform" [("a", JVal.str "1"), ("b", JVal.str "2")]) "b" =
      alookup [("b", JVal.str "9"), ("c", JVal.str "3")] "b") ∧
    (alookup (Feedback.applyFeedback [("doc1_freeform", [("b", JVal.str "9"), ("c", JVal.str "3")])]
        "doc1" "freeform" [("a", JVal.str "1"), ("b", JVal.str "2")]) "a" =
      alookup [("a", JVal.str "1"), ("b", JVal.str "2")] "a") ∧
    ("c" ∈ akeys (Feedback.applyFeedback [("doc1_freeform", [("b", JVal.str "9"), ("c", JVal.str "3")])]
        "doc1" "freeform" [("a", JVal.str "1"), ("b", JVal.str "2")])) ∧
    (Feedback.applyFeedback [] "doc1" "freeform" [("a", JVal.str "1"), ("b", JVal.str "2")] =
      [("a", JVal.str "1"), ("b", JVal.str "2")]) := by
  have h := (C6_feedback_merge [("doc1_freeform", [("b", JVal.str "9"), ("c", JVal.str "3")])]
      "doc1" "freeform" [("a", JVal.str "1"), ("b", JVal.str "2")]).1
      [("b", JVal.str "9"), ("c", JVal.str "3")] rfl (by decide)
  have h0 := (C6_feedback_merge [] "doc1" "freeform"
      [("a", JVal.str "1"), ("b", JVal.str "2")]).2 rfl
  exact ⟨h.1 "b" (by decide), h.2.1 "a" (by decide),
    (h.2.2 "c").mpr (Or.inr (by decide)), h0⟩

/-!
Lemmas about the placeholder-filtering stage and the apply pipeline.
-/

namespace Apply

theorem filterPlaceholderStage_cons (k0 : String) (v0 : JVal) (rest : FieldMap) :
    filterPlaceholderStage ((k0, v0) :: rest) =
      if (((k0, v0) :: rest).filter (fun kv => !(is_placeholder kv.2))).isEmpty
      then ainsert [(k0, v0)] "_note" (JVal.str "All other values were placeholders")
      else ((k0, v0) :: rest).filter (fun kv => !(is_placeholder kv.2)) := by
  unfold filterPlaceholderStage
  simp only [List.isEmpty_cons, Bool.not_false, Bool.and_true]
  by_cases hf : (((k0, v0) :: rest).filter (fun kv => !(is_placeholder kv.2))).isEmpty = true
  · rw [if_pos hf, if_pos hf, List.isEmpty_iff.mp hf]
    rfl
  · rw [if_neg hf, if_neg hf]

theorem filterPlaceholderStage_cons_ne (k0 : String) (v0 : JVal) (rest : FieldMap) :
    filterPlaceholderStage ((k0, v0) :: rest) ≠ [] := by
  rw [filterPlaceholderStage_cons]
  by_cases hf : (((k0, v0) :: rest).filter (fun kv => !(is_placeholder kv.2))).isEmpty = true
  · rw [if_pos hf]
    exact ainsert_ne_nil _ _ _
  · rw [if_neg hf]
    intro hc
    rw [hc] at hf
    exact hf rfl

theorem apply_trace_filter_on (env : ApplyEnv) (k0 : String) (v0 : JVal) (rest : FieldMap)
    (hflt : env.filter_placeholders = true) (hnorm : env.normalize_keys = false) :
    apply_metadata_to_file_direct env ⟨none⟩ ((k0, v0) :: rest) =
      ({ success := true, error := none },
        ⟨some (coerceStage env (filterPlaceholderStage ((k0, v0) :: rest)))⟩,
        [StoreCall.create (coerceStage env (filterPlaceholderStage ((k0, v0) :: rest)))]) := by
  have hne := filterPlaceholderStage_cons_ne k0 v0 rest
  have hie : (filterPlaceholderStage ((k0, v0) :: rest)).isEmpty = false := by
    cases hstage : filterPlaceholderStage ((k0, v0) :: rest) with
    | nil => exact absurd hstage hne
    | cons a l => rfl
  simp [apply_metadata_to_file_direct, hflt, hnorm, hie, BoxStore.createProps]

theorem apply_plain_create (env : ApplyEnv) (vals : FieldMap)
    (hflt : env.filter_placeholders = false) (hnorm : env.normalize_keys = false)
    (hscalar : vals.all (fun kv => isScalarValue kv.2) = true) (hie : vals.isEmpty = false) :
    apply_metadata_to_file_direct env ⟨none⟩ vals =
      ({ success := true, error := none }, ⟨some vals⟩, [StoreCall.create vals]) := by
  simp [apply_metadata_to_file_direct, hflt, hnorm, hie,
    coerceStage_of_scalar env vals hscalar, BoxStore.createProps]

theorem apply_plain_conflict (env : ApplyEnv) (vals cur : FieldMap)
    (hflt : env.filter_placeholders = false) (hnorm : env.normalize_keys = false)
    (hscalar : vals.all (fun kv => isScalarValue kv.2) = true) (hie : vals.isEmpty = false)
    (hkeys : ∀ kv ∈ vals, kv.1 ∈ akeys cur) :
    ∃ r, apply_metadata_to_file_direct env ⟨some cur⟩ vals =
      ({ success := true, error := none }, ⟨some r⟩,
        [StoreCall.create vals,
         StoreCall.update (vals.map (fun kv => PatchOp.mk "replace" ("/" ++ kv.1) kv.2))]) := by
  obtain ⟨r, hr⟩ := applyPatchOps_replace_ok vals cur hkeys
  refine ⟨r, ?_⟩
  simp [apply_metadata_to_file_direct, hflt, hnorm, hie,
    coerceStage_of_scalar env vals hscalar, BoxStore.createProps, BoxStore.updateProps, hr,
    show strContains (lowerStr "Instance tuple already exists") "already exists" = true from rfl]

theorem noUnderscoreFold :
    ∀ (fields acc : FieldMap), (∀ k ∈ akeys acc, startswith k "_" = false) →
      ∀ k ∈ akeys (fields.foldl
        (fun acc kv => if startswith kv.1 "_" then acc else ainsert acc kv.1 kv.2) acc),
        startswith k "_" = false
  | [], _, hacc => hacc
  | (k1, v1) :: tl, acc, hacc => by
      by_cases hs : startswith k1 "_" = true
      · simpa [List.foldl_cons, hs] using noUnderscoreFold tl acc hacc
      · have hs0 : startswith k1 "_" = false := by
          revert hs
          cases startswith k1 "_" <;> simp
        have hacc2 : ∀ k ∈ akeys (ainsert acc k1 v1), startswith k "_" = false := by
          intro k hk
          rcases (mem_akeys_ainsert_iff acc k k1 v1).mp hk with h | h
          · exact hacc k h
          · rw [h]
            exact hs0
        simpa [List.foldl_cons, hs0] using noUnderscoreFold tl (ainsert acc k1 v1) hacc2

end Apply

/-!
Claim theorems about the Apply Engine.
-/

open Apply

/-- C5 counterexample: the all-placeholder map `{"_note": "insert x"}`.
The claim says the result retains that one original field plus an
explanatory marker field; the code builds the fallback by dict assignment,
so the marker write lands on the same key `_note` and the written map is
the single marker entry — one field, the original placeholder value lost. -/
theorem C5_counterexample :
    (apply_metadata_to_file_direct filterEnv ⟨none⟩ [("_note", JVal.str "insert x")]).2.2 =
      [StoreCall.create [("_note", JVal.str "All other values were placeholders")]] ∧
    ([("_note", JVal.str "All other values were placeholders")] : FieldMap).length = 1 ∧
    alookup [("_note", JVal.str "All other values were placeholders")] "_note" ≠
      some (JVal.str "insert x") :=
  ⟨rfl, rfl, by simp [alookup]⟩

/-- C5 (amended): with placeholder filtering enabled (and key normalization
off so keys are left as-is), the map sent to the store's create call keeps
exactly the entries whose value is not a placeholder — a placeholder being
a string whose lower-cased text contains one of the fixed indicators — and,
when every entry of the non-empty input would be dropped, it instead
assigns the first original field and then the `_note` marker field into the
emptied dict (the two writes collapsing to the single marker entry when the
first key is itself `_note`), so the written map is never empty. -/
theorem C5_placeholder_filtering (env : ApplyEnv) (k0 : String) (v0 : JVal) (rest : FieldMap)
    (hflt : env.filter_placeholders = true) (hnorm : env.normalize_keys = false) :
    (apply_metadata_to_file_direct env ⟨none⟩ ((k0, v0) :: rest)).2.2 =
      [StoreCall.create (coerceStage env (filterPlaceholderStage ((k0, v0) :: rest)))] ∧
    filterPlaceholderStage ((k0, v0) :: rest) =
      (if (((k0, v0) :: rest).filter (fun kv => !(is_placeholder kv.2))).isEmpty
       then ainsert [(k0, v0)] "_note" (JVal.str "All other values were placeholders")
       else ((k0, v0) :: rest).filter (fun kv => !(is_placeholder kv.2))) ∧
    filterPlaceholderStage ((k0, v0) :: rest) ≠ [] := by
  refine ⟨?_, filterPlaceholderStage_cons k0 v0 rest, filterPlaceholderStage_cons_ne k0 v0 rest⟩
  rw [apply_trace_filter_on env k0 v0 rest hflt hnorm]

/-- Witness for C5 at the specification's examples: one placeholder plus one
real value keeps only the real value; an all-placeholder map keeps its one
field plus the marker field. -/
theorem C5_witness :
    (apply_metadata_to_file_direct filterEnv ⟨none⟩
        [("date", JVal.str "insert date here"), ("name", JVal.str "Acme Corp")]).2.2 =
      [StoreCall.create [("name", JVal.str "Acme Corp")]] ∧
    (apply_metadata_to_file_direct filterEnv ⟨none⟩ [("date", JVal.str "insert date")]).2.2 =
      [StoreCall.create [("date", JVal.str "insert date"), placeholderNote]] :=
  ⟨(C5_placeholder_filtering filterEnv "date" (JVal.str "insert date here")
      [("name", JVal.str "Acme Corp")] rfl rfl).1,
   (C5_placeholder_filtering filterEnv "date" (JVal.str "insert date") [] rfl rfl).1⟩

/-- C10 counterexample: the all-placeholder map
`{"_note": "insert a", "x": "insert b"}`, whose first key is itself
`_note`.  The claim says the written map contains exactly two keys — the
first original key with its original placeholder value plus `_note`; the
code's two dict writes collapse and the written map is the single marker
entry. -/
theorem C10_counterexample :
    (apply_metadata_to_file_direct filterEnv ⟨none⟩
        [("_note", JVal.str "insert a"), ("x", JVal.str "insert b")]).2.2 =
      [StoreCall.create [("_note", JVal.str "All other values were placeholders")]] ∧
    ([("_note", JVal.str "All other values were placeholders")] : FieldMap).length ≠ 2 :=
  ⟨rfl, by decide⟩

/-- C10 (amended): when placeholder filtering removes every entry of a
non-empty map (normalization off) and the first key of the map is not
itself `_note`, the map written by the create call has exactly two
entries — the first key of the original map with its original placeholder
value, and the literal key `_note`; when the first key is `_note` the two
dict writes collapse and the written map is the single marker entry.  The
result-collection path of `apply_metadata_direct` strips every key
beginning with the underscore prefix, `_note` among them. -/
theorem C10_all_placeholder_written_map (env : ApplyEnv) (k0 : String) (v0 : JVal)
    (rest : FieldMap) (hflt : env.filter_placeholders = true)
    (hnorm : env.normalize_keys = false)
    (hall : ∀ kv ∈ (k0, v0) :: rest, is_placeholder kv.2 = true)
    (hk0 : k0 ≠ "_note") :
    (apply_metadata_to_file_direct env ⟨none⟩ ((k0, v0) :: rest)).2.2 =
      [StoreCall.create [(k0, v0), placeholderNote]] ∧
    (∀ (v : JVal) (rest2 : FieldMap),
        (∀ kv ∈ ("_note", v) :: rest2, is_placeholder kv.2 = true) →
        (apply_metadata_to_file_direct env ⟨none⟩ (("_note", v) :: rest2)).2.2 =
          [StoreCall.create [placeholderNote]]) ∧
    (∀ (parse : String → Option JVal) (fields : FieldMap) (k : String),
        k ∈ akeys (metadataValuesFromContent parse (JVal.dict fields)) →
        startswith k "_" = false) ∧
    startswith placeholderNote.1 "_" = true := by
  refine ⟨?_, ?_, ?_, rfl⟩
  · have hfe : ((k0, v0) :: rest).filter (fun kv => !(is_placeholder kv.2)) = [] :=
      List.filter_eq_nil_iff.mpr (fun kv hkv => by simp [hall kv hkv])
    have hstage : filterPlaceholderStage ((k0, v0) :: rest) = [(k0, v0), placeholderNote] := by
      rw [filterPlaceholderStage_cons, hfe]
      show ainsert [(k0, v0)] "_note" (JVal.str "All other values were placeholders") = _
      simp [ainsert, hk0, placeholderNote]
    have hv0 : coerceValue env v0 = v0 :=
      coerceValue_placeholder env v0 (hall (k0, v0) (List.mem_cons_self _ _))
    have hco : coerceStage env [(k0, v0), placeholderNote] = [(k0, v0), placeholderNote] := by
      simp only [coerceStage, List.map_cons, List.map_nil, hv0]
      rfl
    rw [apply_trace_filter_on env k0 v0 rest hflt hnorm, hstage, hco]
  · intro v rest2 hall2
    have hfe2 : (("_note", v) :: rest2).filter (fun kv => !(is_placeholder kv.2)) = [] :=
      List.filter_eq_nil_iff.mpr (fun kv hkv => by simp [hall2 kv hkv])
    have hstage2 : filterPlaceholderStage (("_note", v) :: rest2) = [placeholderNote] := by
      rw [filterPlaceholderStage_cons, hfe2]
      show ainsert [("_note", v)] "_note" (JVal.str "All other values were placeholders") = _
      simp [ainsert, placeholderNote]
    rw [apply_trace_filter_on env "_note" v rest2 hflt hnorm, hstage2]
    rfl
  · intro parse fields k hk
    exact noUnderscoreFold fields [] (by intro k hk; simp [akeys] at hk) k hk

/-- Witness for C10 (amended) at a concrete two-entry, all-placeholder map
whose first key is not `_note`, plus the collapsing `_note`-first case. -/
theorem C10_witness :
    (apply_metadata_to_file_direct filterEnv ⟨none⟩
        [("date", JVal.str "insert date"), ("name", JVal.str "[your name]")]).2.2 =
      [StoreCall.create [("date", JVal.str "insert date"), placeholderNote]] ∧
    (apply_metadata_to_file_direct filterEnv ⟨none⟩
        [("_note", JVal.str "insert y")]).2.2 = [StoreCall.create [placeholderNote]] ∧
    startswith placeholderNote.1 "_" = true := by
  have h := C10_all_placeholder_written_map filterEnv "date" (JVal.str "insert date")
      [("name", JVal.str "[your name]")] rfl rfl (by decide) (by decide)
  exact ⟨h.1, h.2.1 (JVal.str "insert y") [] (by decide), h.2.2.2⟩

/-- C4 counterexample: a store whose existing record holds only `a`, and a
field map with keys `a` and `b`.  The claim says the conflict path fetches
the existing values and patches `add` for `b` (not previously present) and
`replace` for `a`; the code never fetches and builds `replace` operations
for every key, so its patch differs from the claimed one. -/
theorem C4_counterexample :
    (apply_metadata_to_file_direct defaultEnv ⟨some [("a", JVal.str "1")]⟩
        [("a", JVal.str "1"), ("b", JVal.str "2")]).2.2 =
      [StoreCall.create [("a", JVal.str "1"), ("b", JVal.str "2")],
       StoreCall.update [PatchOp.mk "replace" "/a" (JVal.str "1"),
                         PatchOp.mk "replace" "/b" (JVal.str "2")]] ∧
    StoreCall.get ∉ (apply_metadata_to_file_direct defaultEnv ⟨some [("a", JVal.str "1")]⟩
        [("a", JVal.str "1"), ("b", JVal.str "2")]).2.2 ∧
    claimedUpsertPatch [("a", JVal.str "1")] [("a", JVal.str "1"), ("b", JVal.str "2")] =
      [PatchOp.mk "replace" "/a" (JVal.str "1"), PatchOp.mk "add" "/b" (JVal.str "2")] ∧
    [PatchOp.mk "replace" "/a" (JVal.str "1"), PatchOp.mk "replace" "/b" (JVal.str "2")] ≠
      [PatchOp.mk "replace" "/a" (JVal.str "1"), PatchOp.mk "add" "/b" (JVal.str "2")] := by
  refine ⟨rfl, ?_, rfl, by simp⟩
  have h : (apply_metadata_to_file_direct defaultEnv ⟨some [("a", JVal.str "1")]⟩
        [("a", JVal.str "1"), ("b", JVal.str "2")]).2.2 =
      [StoreCall.create [("a", JVal.str "1"), ("b", JVal.str "2")],
       StoreCall.update [PatchOp.mk "replace" "/a" (JVal.str "1"),
                         PatchOp.mk "replace" "/b" (JVal.str "2")]] := rfl
  rw [h]
  simp

/-- C4 (amended): the apply operation first attempts a create; if the store
reports an "already exists" conflict it issues — without fetching existing
values — an update whose patch holds a `replace` operation for every key of
the field map; in particular, applying the same field map twice against a
store that conflicts on the second create results in an update call with
`replace` operations for every key and a successful outcome, with no fetch
call ever made. -/
theorem C4_upsert_replace_every_key (env : ApplyEnv) (vals : FieldMap)
    (hflt : env.filter_placeholders = false) (hnorm : env.normalize_keys = false)
    (hscalar : vals.all (fun kv => isScalarValue kv.2) = true) (hne : vals ≠ []) :
    (apply_metadata_to_file_direct env ⟨none⟩ vals).1.success = true ∧
    (apply_metadata_to_file_direct env ⟨none⟩ vals).2.2 = [StoreCall.create vals] ∧
    (apply_metadata_to_file_direct env
        (apply_metadata_to_file_direct env ⟨none⟩ vals).2.1 vals).1.success = true ∧
    (apply_metadata_to_file_direct env
        (apply_metadata_to_file_direct env ⟨none⟩ vals).2.1 vals).2.2 =
      [StoreCall.create vals,
       StoreCall.update (vals.map (fun kv => PatchOp.mk "replace" ("/" ++ kv.1) kv.2))] ∧
    StoreCall.get ∉ (apply_metadata_to_file_direct env
        (apply_metadata_to_file_direct env ⟨none⟩ vals).2.1 vals).2.2 := by
  have hie : vals.isEmpty = false := by
    cases vals with
    | nil => exact absurd rfl hne
    | cons a l => rfl
  have h1 := apply_plain_create env vals hflt hnorm hscalar hie
  obtain ⟨r, h2⟩ := apply_plain_conflict env vals vals hflt hnorm hscalar hie
    (fun kv h => fst_mem_akeys vals kv h)
  refine ⟨by rw [h1], by rw [h1], ?_, ?_, ?_⟩
  · rw [h1]
    show (apply_metadata_to_file_direct env ⟨some vals⟩ vals).1.success = true
    rw [h2]
  · rw [h1]
    show (apply_metadata_to_file_direct env ⟨some vals⟩ vals).2.2 = _
    rw [h2]
  · rw [h1]
    show StoreCall.get ∉ (apply_metadata_to_file_direct env ⟨some vals⟩ vals).2.2
    rw [h2]
    simp

/-- Witness for C4 (amended) at a one-field map applied twice from an empty
store. -/
theorem C4_witness :
    (apply_metadata_to_file_direct plainEnv
        (apply_metadata_to_file_direct plainEnv ⟨none⟩ [("inv", JVal.str "42")]).2.1
        [("inv", JVal.str "42")]).1.success = true ∧
    (apply_metadata_to_file_direct plainEnv
        (apply_metadata_to_file_direct plainEnv ⟨none⟩ [("inv", JVal.str "42")]).2.1
        [("inv", JVal.str "42")]).2.2 =
      [StoreCall.create [("inv", JVal.str "42")],
       StoreCall.update [PatchOp.mk "replace" "/inv" (JVal.str "42")]] := by
  have h := C4_upsert_replace_every_key plainEnv [("inv", JVal.str "42")] rfl rfl rfl
      (List.cons_ne_nil _ _)
  exact ⟨h.2.2.1, h.2.2.2.1⟩

/-!
Lemmas about the V3.0 batch driver.
-/

namespace DriverV3

theorem countCalls_append (t l : List Ev) (fid : String) :
    countCalls (t ++ l) fid = countCalls t fid + countCalls l fid := by
  simp [countCalls, List.filter_append]

theorem countCalls_call_ne (g fid : String) (h : g ≠ fid) :
    countCalls [Ev.call g] fid = 0 := by
  simp [countCalls, isCallOf, h]

theorem countCalls_call_sleep_ne (g fid : String) (h : g ≠ fid) :
    countCalls [Ev.call g, Ev.sleep] fid = 0 := by
  simp [countCalls, isCallOf, h]

theorem finishStep_results (files : List FileInfo) (s : PState) :
    (finishStep files s).results = s.results := by
  simp only [finishStep]
  split <;> rfl

theorem process_files_step_keeps_result
    (extract : String → Nat → Except String FieldMap) (files : List FileInfo)
    (s : PState) (t : List Ev) (fid : String) (r : ResultEntry)
    (h : alookup s.results fid = some r) :
    alookup (process_files_step extract files s t).1.results fid = some r ∧
    countCalls (process_files_step extract files s t).2 fid = countCalls t fid := by
  unfold process_files_step
  by_cases hp : s.is_processing
  · simp only [hp, if_true]
    cases hg : getFile files (s.current_file_index + 1) with
    | none => exact ⟨h, by trivial⟩
    | some file =>
      cases hre : alookup s.results file.id with
      | some re =>
          simp only [hre]
          exact ⟨h, by trivial⟩
      | none =>
          have hne : file.id ≠ fid := by
            intro hc
            rw [hc, h] at hre
            exact Option.noConfusion hre
          cases hee : alookup s.errors file.id with
          | some ee =>
              simp only [hre, hee]
              by_cases hrc : (alookup s.retries file.id).getD 0 < s.max_retries
              · simp only [hrc, if_true]
                cases hex : extract file.id (countCalls t file.id) with
                | ok fm =>
                    simp only [process_file, hex]
                    simp [finishStep_results]
                    refine ⟨?_, ?_⟩
                    · rw [alookup_ainsert_ne s.results fid file.id _ hne]
                      exact h
                    · rw [countCalls_append, countCalls_call_sleep_ne file.id fid hne, Nat.add_zero]
                | error e =>
                    simp only [process_file, hex]
                    simp [finishStep_results]
                    exact ⟨h, by rw [countCalls_append, countCalls_call_sleep_ne file.id fid hne, Nat.add_zero]⟩
              · simp only [hrc, if_false, finishStep_results]
                exact ⟨h, by trivial⟩
          | none =>
              simp only [hre, hee]
              cases hex : extract file.id (countCalls t file.id) with
              | ok fm =>
                  simp only [process_file, hex]
                  simp [finishStep_results]
                  refine ⟨?_, ?_⟩
                  · rw [alookup_ainsert_ne s.results fid file.id _ hne]
                    exact h
                  · rw [countCalls_append, countCalls_call_ne file.id fid hne, Nat.add_zero]
              | error e =>
                  simp only [process_file, hex]
                  simp [finishStep_results]
                  exact ⟨h, by rw [countCalls_append, countCalls_call_ne file.id fid hne, Nat.add_zero]⟩
  · simp only [hp, if_false]
    exact ⟨h, by trivial⟩

theorem process_files_run_keeps_result
    (extract : String → Nat → Except String FieldMap) (files : List FileInfo) :
    ∀ (fuel : Nat) (s : PState) (t : List Ev) (fid : String) (r : ResultEntry),
      alookup s.results fid = some r →
      alookup (process_files_run extract files fuel s t).1.results fid = some r ∧
      countCalls (process_files_run extract files fuel s t).2 fid = countCalls t fid
  | 0, _, _, _, _, h => ⟨h, rfl⟩
  | Nat.succ fuel, s, t, fid, r, h => by
      unfold process_files_run
      by_cases hp : s.is_processing
      · simp only [hp, if_true]
        obtain ⟨h1, h2⟩ := process_files_step_keeps_result extract files s t fid r h
        obtain ⟨h3, h4⟩ := process_files_run_keeps_result extract files fuel
          (process_files_step extract files s t).1 (process_files_step extract files s t).2
          fid r h1
        exact ⟨h3, h4.trans h2⟩
      · simp only [hp, if_false]
        exact ⟨h, rfl⟩

end DriverV3

open DriverV3

/-- C7: a document that already has a recorded success outcome when the
driver runs is never re-invoked — the run adds no extraction call for its id
to the trace — and its recorded outcome is left unchanged, for every oracle,
file list, fuel, starting state and starting trace. -/
theorem C7_batch_idempotence (extract : String → Nat → Except String FieldMap)
    (files : List FileInfo) (fuel : Nat) (s : PState) (t : List Ev)
    (fid : String) (r : ResultEntry) (h : alookup s.results fid = some r) :
    alookup (process_files_run extract files fuel s t).1.results fid = some r ∧
    countCalls (process_files_run extract files fuel s t).2 fid = countCalls t fid :=
  process_files_run_keeps_result extract files fuel s t fid r h

/-- Witness for C7: a two-file run in which file `a` already has a recorded
outcome; the run never invokes `a` and keeps its outcome. -/
theorem C7_witness :
    alookup (process_files_run (fun _ _ => Except.ok [])
        [⟨"a", "A"⟩, ⟨"b", "B"⟩] 8
        { initPState 3 with results := [("a", ⟨"a", "A", []⟩)] } []).1.results "a" =
      some ⟨"a", "A", []⟩ ∧
    countCalls (process_files_run (fun _ _ => Except.ok [])
        [⟨"a", "A"⟩, ⟨"b", "B"⟩] 8
        { initPState 3 with results := [("a", ⟨"a", "A", []⟩)] } []).2 "a" =
      countCalls [] "a" :=
  C7_batch_idempotence (fun _ _ => Except.ok []) [⟨"a", "A"⟩, ⟨"b", "B"⟩] 8
    { initPState 3 with results := [("a", ⟨"a", "A", []⟩)] } [] "a" ⟨"a", "A", []⟩ rfl

/-- C1: at the failing input — one selected file, `max_retries = 2`, an
extraction that raises on every attempt — the driver invokes the extraction
exactly once (not `max_retries + 1 = 3` times), records the first error
message as the outcome, never populates the retry counter, and completes
the run (so more fuel changes nothing).  The retry branch of
`process_files` is unreachable for a file processed once, because the
shared tail advances `current_file_index` past it. -/
theorem C1_always_failing_invoked_once :
    countCalls (process_files_run (fun _ _ => Except.error "boom")
      [⟨"f1", "doc1"⟩] 6 (initPState 2) []).2 "f1" = 1 ∧
    alookup (process_files_run (fun _ _ => Except.error "boom")
      [⟨"f1", "doc1"⟩] 6 (initPState 2) []).1.errors "f1" = some ⟨"f1", "doc1", "boom"⟩ ∧
    alookup (process_files_run (fun _ _ => Except.error "boom")
      [⟨"f1", "doc1"⟩] 6 (initPState 2) []).1.retries "f1" = none ∧
    (process_files_run (fun _ _ => Except.error "boom")
      [⟨"f1", "doc1"⟩] 6 (initPState 2) []).1.is_processing = false := by
  decide

/-!
Lemmas about the batch loop of `modules/processing.py`.
-/

namespace Processing4

theorem seqLoop_cancel_no_outcome (cancel : Nat → Bool)
    (outcome : String → Except String FieldMap) :
    ∀ (files : List FileInfo) (i : Nat) (s : ProcState) (c p : Nat) (f : FileInfo),
      cancel c = true → i ≤ c → c ≤ i + p → files.get? p = some f →
      (files.map (fun x => x.id)).Nodup →
      f.id ∉ akeys s.results → f.id ∉ akeys s.errors →
      f.id ∉ akeys (seqLoop cancel outcome files i s).1.results ∧
      f.id ∉ akeys (seqLoop cancel outcome files i s).1.errors ∧
      f.id ∉ (seqLoop cancel outcome files i s).2
  | [], _, _, _, p, _, _, _, _, hget, _, _, _ => by simp at hget
  | f0 :: rest, i, s, c, p, f, hc, hic, hcp, hget, hnd, hr, he => by
      by_cases hci : cancel i = true
      · simp only [seqLoop, hci, if_true]
        exact ⟨hr, he, by simp⟩
      · have hic1 : i + 1 ≤ c := by
          rcases Nat.lt_or_ge i c with hlt | hge
          · exact hlt
          · exact absurd (Nat.le_antisymm hic hge ▸ hc) hci
        cases p with
        | zero => omega
        | succ q =>
            have hget2 : rest.get? q = some f := hget
            have hmem : f ∈ rest := List.get?_mem hget2
            have hfid : f.id ∈ rest.map (fun x => x.id) := List.mem_map_of_mem _ hmem
            have hnd2 := List.nodup_cons.mp hnd
            have hne : f0.id ≠ f.id := fun hx => hnd2.1 (by
              show f0.id ∈ List.map (fun x => x.id) rest
              rw [hx]
              exact hfid)
            have hcp2 : c ≤ (i + 1) + q := by omega
            cases hout : outcome f0.id with
            | ok d =>
                have hr2 : f.id ∉ akeys (ainsert s.results f0.id d) := fun hx => by
                  rcases (mem_akeys_ainsert_iff s.results f.id f0.id d).mp hx with hx | hx
                  · exact hr hx
                  · exact hne hx.symm
                have ih := seqLoop_cancel_no_outcome cancel outcome rest (i + 1)
                  { s with
                    current_file_index := (i : Int)
                    current_file := f0.name
                    processed_files := s.processed_files + 1
                    results := ainsert s.results f0.id d
                    extraction_results := ainsert s.extraction_results f0.id d }
                  c q f hc hic1 hcp2 hget2 hnd2.2 hr2 he
                have hunf : seqLoop cancel outcome (f0 :: rest) i s =
                    ((seqLoop cancel outcome rest (i + 1)
                      { s with
                        current_file_index := (i : Int)
                        current_file := f0.name
                        processed_files := s.processed_files + 1
                        results := ainsert s.results f0.id d
                        extraction_results := ainsert s.extraction_results f0.id d }).1,
                     f0.id :: (seqLoop cancel outcome rest (i + 1)
                      { s with
                        current_file_index := (i : Int)
                        current_file := f0.name
                        processed_files := s.processed_files + 1
                        results := ainsert s.results f0.id d
                        extraction_results := ainsert s.extraction_results f0.id d }).2) := by
                  simp only [seqLoop]
                  rw [if_neg hci, hout]
                rw [hunf]
                exact ⟨ih.1, ih.2.1, by
                  intro hx
                  rcases List.mem_cons.mp hx with hx | hx
                  · exact hne hx.symm
                  · exact ih.2.2 hx⟩
            | error e =>
                have he2 : f.id ∉ akeys (ainsert s.errors f0.id e) := fun hx => by
                  rcases (mem_akeys_ainsert_iff s.errors f.id f0.id e).mp hx with hx | hx
                  · exact he hx
                  · exact hne hx.symm
                have ih := seqLoop_cancel_no_outcome cancel outcome rest (i + 1)
                  { s with
                    current_file_index := (i : Int)
                    current_file := f0.name
                    processed_files := s.processed_files + 1
                    errors := ainsert s.errors f0.id e }
                  c q f hc hic1 hcp2 hget2 hnd2.2 hr he2
                have hunf : seqLoop cancel outcome (f0 :: rest) i s =
                    ((seqLoop cancel outcome rest (i + 1)
                      { s with
                        current_file_index := (i : Int)
                        current_file := f0.name
                        processed_files := s.processed_files + 1
                        errors := ainsert s.errors f0.id e }).1,
                     f0.id :: (seqLoop cancel outcome rest (i + 1)
                      { s with
                        current_file_index := (i : Int)
                        current_file := f0.name
                        processed_files := s.processed_files + 1
                        errors := ainsert s.errors f0.id e }).2) := by
                  simp only [seqLoop]
                  rw [if_neg hci, hout]
                rw [hunf]
                exact ⟨ih.1, ih.2.1, by
                  intro hx
                  rcases List.mem_cons.mp hx with hx | hx
                  · exact hne hx.symm
                  · exact ih.2.2 hx⟩

theorem recordCompletion_keeps (outcome : String → Except String FieldMap)
    (st : ProcState) (g : FileInfo) (k : String)
    (h : k ∈ akeys st.results ∨ k ∈ akeys st.errors) :
    k ∈ akeys (recordCompletion outcome st g).results ∨
      k ∈ akeys (recordCompletion outcome st g).errors := by
  cases hout : outcome g.id with
  | ok d =>
      simp only [recordCompletion, hout]
      rcases h with h | h
      · exact Or.inl (mem_akeys_ainsert_of_mem _ _ _ _ h)
      · exact Or.inr h
  | error e =>
      simp only [recordCompletion, hout]
      rcases h with h | h
      · exact Or.inl h
      · exact Or.inr (mem_akeys_ainsert_of_mem _ _ _ _ h)

theorem foldl_record_keeps (outcome : String → Except String FieldMap) :
    ∀ (l : List FileInfo) (st : ProcState) (k : String),
      (k ∈ akeys st.results ∨ k ∈ akeys st.errors) →
      k ∈ akeys (l.foldl (recordCompletion outcome) st).results ∨
        k ∈ akeys (l.foldl (recordCompletion outcome) st).errors
  | [], _, _, h => h
  | g :: tl, st, k, h =>
      foldl_record_keeps outcome tl (recordCompletion outcome st g) k
        (recordCompletion_keeps outcome st g k h)

theorem foldl_record_records (outcome : String → Except String FieldMap) :
    ∀ (l : List FileInfo) (st : ProcState) (f : FileInfo), f ∈ l →
      f.id ∈ akeys (l.foldl (recordCompletion outcome) st).results ∨
        f.id ∈ akeys (l.foldl (recordCompletion outcome) st).errors
  | [], _, f, h => absurd h (List.not_mem_nil f)
  | g :: tl, st, f, h => by
      rcases List.mem_cons.mp h with h | h
      · subst h
        refine foldl_record_keeps outcome tl (recordCompletion outcome st f) f.id ?_
        cases hout : outcome f.id with
        | ok d =>
            simp only [recordCompletion, hout]
            exact Or.inl ((mem_akeys_ainsert_iff _ _ _ _).mpr (Or.inr rfl))
        | error e =>
            simp only [recordCompletion, hout]
            exact Or.inr ((mem_akeys_ainsert_iff _ _ _ _).mpr (Or.inr rfl))
      · exact foldl_record_records outcome tl (recordCompletion outcome st g) f h

end Processing4

open Processing4

/-- C8: cancellation semantics of the batch loop.  In Sequential mode, once
a cancellation is observed at the check of iteration `c`, no outcome is ever
recorded — and no invocation made — for any document at position `c` or
later (the documents strictly after the one whose processing preceded the
observation).  In Parallel mode every file is dispatched before any
cancellation can be observed and every dispatched invocation is recorded,
for an arbitrary completion order covering all indices; the only
cancellation observation point is the entry guard, and when cancellation is
observed there, nothing at all is dispatched, in either mode. -/
theorem C8_cancellation :
    (∀ (cancel : Nat → Bool) (outcome : String → Except String FieldMap)
        (files : List FileInfo) (s : ProcState) (c p : Nat) (f : FileInfo),
        cancel c = true → c ≤ p → files.get? p = some f →
        (files.map (fun x => x.id)).Nodup →
        f.id ∉ akeys s.results → f.id ∉ akeys s.errors →
        f.id ∉ akeys (process_files_with_progress_seq false cancel outcome files s).1.results ∧
        f.id ∉ akeys (process_files_with_progress_seq false cancel outcome files s).1.errors ∧
        f.id ∉ (process_files_with_progress_seq false cancel outcome files s).2) ∧
    (∀ (outcome : String → Except String FieldMap) (files : List FileInfo)
        (arrival : List Nat) (s : ProcState),
        (∀ j, j < files.length → j ∈ arrival) →
        (process_files_with_progress_par false outcome files arrival s).2 =
          files.map (fun x => x.id) ∧
        ∀ f, f ∈ files →
          (f.id ∈ akeys (process_files_with_progress_par false outcome files arrival s).1.results ∨
           f.id ∈ akeys (process_files_with_progress_par false outcome files arrival s).1.errors)) ∧
    (∀ (cancel : Nat → Bool) (outcome : String → Except String FieldMap)
        (files : List FileInfo) (s : ProcState),
        process_files_with_progress_seq true cancel outcome files s = (s, [])) ∧
    (∀ (outcome : String → Except String FieldMap) (files : List FileInfo)
        (arrival : List Nat) (s : ProcState),
        process_files_with_progress_par true outcome files arrival s = (s, [])) := by
  refine ⟨?_, ?_, fun _ _ _ _ => rfl, fun _ _ _ _ => rfl⟩
  · intro cancel outcome files s c p f hc hcp hget hnd hr he
    exact seqLoop_cancel_no_outcome cancel outcome files 0 { s with total_files := files.length }
      c p f hc (Nat.zero_le c) (by omega) hget hnd hr he
  · intro outcome files arrival s harr
    refine ⟨rfl, fun f hf => ?_⟩
    obtain ⟨j, hj⟩ := List.mem_iff_get?.mp hf
    have hjlt : j < files.length := by
      rcases List.get?_eq_some.mp hj with ⟨hlt, _⟩
      exact hlt
    have hfc : f ∈ arrival.filterMap files.get? :=
      List.mem_filterMap.mpr ⟨j, harr j hjlt, hj⟩
    exact foldl_record_records outcome (arrival.filterMap files.get?)
      { s with total_files := files.length } f hfc

/-- Witness for C8: a three-file sequential run with cancellation observed
at the second iteration leaves the third file without outcome and without
invocation; a parallel run with completion order `[2, 0, 1]` dispatches all
three ids and records the second file; entry-observed cancellation
dispatches nothing in either mode. -/
theorem C8_witness :
    ("c" ∉ akeys (process_files_with_progress_seq false (fun i => decide (1 ≤ i))
        (fun _ => Except.ok []) [⟨"a", "A"⟩, ⟨"b", "B"⟩, ⟨"c", "C"⟩]
        emptyProcState).1.results ∧
     "c" ∉ (process_files_with_progress_seq false (fun i => decide (1 ≤ i))
        (fun _ => Except.ok []) [⟨"a", "A"⟩, ⟨"b", "B"⟩, ⟨"c", "C"⟩] emptyProcState).2) ∧
    ((process_files_with_progress_par false (fun _ => Except.ok [])
        [⟨"a", "A"⟩, ⟨"b", "B"⟩, ⟨"c", "C"⟩] [2, 0, 1] emptyProcState).2 =
      ["a", "b", "c"] ∧
     ("b" ∈ akeys (process_files_with_progress_par false (fun _ => Except.ok [])
        [⟨"a", "A"⟩, ⟨"b", "B"⟩, ⟨"c", "C"⟩] [2, 0, 1] emptyProcState).1.results ∨
      "b" ∈ akeys (process_files_with_progress_par false (fun _ => Except.ok [])
        [⟨"a", "A"⟩, ⟨"b", "B"⟩, ⟨"c", "C"⟩] [2, 0, 1] emptyProcState).1.errors)) ∧
    process_files_with_progress_seq true (fun i => decide (1 ≤ i)) (fun _ => Except.ok [])
      [⟨"a", "A"⟩, ⟨"b", "B"⟩, ⟨"c", "C"⟩] emptyProcState = (emptyProcState, []) ∧
    process_files_with_progress_par true (fun _ => Except.ok [])
      [⟨"a", "A"⟩, ⟨"b", "B"⟩, ⟨"c", "C"⟩] [2, 0, 1] emptyProcState = (emptyProcState, []) := by
  have hseq := C8_cancellation.1 (fun i => decide (1 ≤ i)) (fun _ => Except.ok [])
    [⟨"a", "A"⟩, ⟨"b", "B"⟩, ⟨"c", "C"⟩] emptyProcState 1 2 ⟨"c", "C"⟩
    rfl (by decide) rfl (by decide) (by decide) (by decide)
  have hpar := C8_cancellation.2.1 (fun _ => Except.ok [])
    [⟨"a", "A"⟩, ⟨"b", "B"⟩, ⟨"c", "C"⟩] [2, 0, 1] emptyProcState (by decide)
  exact ⟨⟨hseq.1, hseq.2.2⟩, ⟨hpar.1, hpar.2 ⟨"b", "B"⟩ (by decide)⟩,
    C8_cancellation.2.2.1 (fun i => decide (1 ≤ i)) (fun _ => Except.ok [])
      [⟨"a", "A"⟩, ⟨"b", "B"⟩, ⟨"c", "C"⟩] emptyProcState,
    C8_cancellation.2.2.2 (fun _ => Except.ok [])
      [⟨"a", "A"⟩, ⟨"b", "B"⟩, ⟨"c", "C"⟩] [2, 0, 1] emptyProcState⟩

end MetadataAI
